import Mathlib

/-!
Verification development for the numerical pipeline of
`qlipper/postprocess/plot_mee.py`: frame conversion plumbing, the
Moon-relative reference shifter, target-state synthesis, true-longitude
interpolation, and segmentation of the dense 3D path.

States are modelled as width-6 rational rows (`Fin 6 → ℚ`); the batch
converters `batch_mee_to_cartesian` / `batch_cartesian_to_mee`, whose
implementation lives outside this module, appear as explicit function
parameters `m2c` / `c2m` wherever the plotting code calls them.
-/

/-- A modified-equinoctial-element row: components p, f, g, h, k and the
true longitude L as component 5. -/
abbrev Mee : Type := Fin 6 → ℚ

/-- A Cartesian state row: position x, y, z then velocity vx, vy, vz. -/
abbrev Cart : Type := Fin 6 → ℚ

/-- Modelled from the spec: gravitational parameter of the primary (Earth),
from `qlipper.constants` which is not part of this module; its numeric
value is irrelevant to every property proved here, only that it is the
scalar passed for Earth-frame conversions. -/
def MU_EARTH : ℚ := 398600441800000

/-- Modelled from the spec: gravitational parameter of the secondary
(Moon), from `qlipper.constants`; as with `MU_EARTH` only its identity as
the Moon-frame scalar matters here. -/
def MU_MOON : ℚ := 4904869500000

/-- The double-precision value of 2 * pi, as used by `numpy` (`2 * np.pi`),
as an exact rational. -/
def TWO_PI : ℚ := 6283185307179586 / 1000000000000000

/-- Componentwise subtraction of two Cartesian rows
(`cart_state - moon_state`). -/
def csub (a b : Cart) : Cart := fun i => a i - b i

/-- Overwrite component `i` of a row with `v` (one element of a jax
`.at[:, i].set(v)` column update). -/
def setComp (r : Mee) (i : Fin 6) (v : ℚ) : Mee := fun j => if j = i then v else r j

/-- Column update on a whole history: `arr.at[:, i].set(v)` with a constant
`v`. -/
def setCol (ys : List Mee) (i : Fin 6) (v : ℚ) : List Mee :=
  ys.map fun r => setComp r i v

/-- `y_target = jnp.zeros_like(y)` followed by the loop
`for i in range(5): y_target = y_target.at[:, i].set(cfg.y_target[i])`,
with the five iterations unrolled. -/
def broadcast_target (Y : Fin 5 → ℚ) (ys : List Mee) : List Mee :=
  setCol (setCol (setCol (setCol (setCol
    (ys.map fun _ => (fun _ => 0 : Mee)) 0 (Y 0)) 1 (Y 1)) 2 (Y 2)) 3 (Y 3)) 4 (Y 4)

/-- The normalization `y = y.at[:, 0].set(y[:, 0] - 1.0)`. -/
def subOneCol0 (ys : List Mee) : List Mee :=
  ys.map fun r => setComp r 0 (r 0 - 1)

/-- The fields of `SimConfig` that `plot_elements_mee` reads. -/
structure SimConfig where
  steering_law : String
  y_target : Fin 5 → ℚ

/-- The fields of `Params` that `plot_elements_mee` reads:
`params.moon_ephem.evaluate`, the Moon's Cartesian ephemeris state as a
function of time in the Earth frame. -/
structure Params where
  moon_ephem : ℚ → Cart

/-- The data `plot_elements_mee` computes and hands to the plotting layer:
the element history that is plotted, the target history plotted dashed,
and the figure title. -/
structure ElementsData where
  yPlot : List Mee
  yTarget : List Mee
  title : String

/-- Shallow embedding of the data-computing part of `plot_elements_mee`
(`plot_mee.py` lines 47-68 and 101-105).  The batch converters are the
parameters `c2m` (`batch_cartesian_to_mee`) and `m2c`
(`batch_mee_to_cartesian`); `jax.vmap(params.moon_ephem.evaluate)(t)` is
`t.map params.moon_ephem`. -/
def plot_elements_mee (c2m : Cart → ℚ → Mee) (m2c : Mee → ℚ → Cart)
    (t : List ℚ) (y : List Mee) (cfg : SimConfig) (params : Params)
    (wrt_moon : Bool) : ElementsData :=
  let title := "Modified Equinoctial Elements" ++
    (if wrt_moon then " (Selenocentric)" else " (Geocentric)")
  if cfg.steering_law = "bbq_law" then
    let moon_state := t.map params.moon_ephem
    let cart_state := y.map fun r => m2c r MU_EARTH
    if wrt_moon then
      let rel_state := List.zipWith csub cart_state moon_state
      let y2 := subOneCol0 (rel_state.map fun s => c2m s MU_MOON)
      ⟨y2, broadcast_target cfg.y_target y2, title⟩
    else
      ⟨y, moon_state.map fun s => c2m s MU_EARTH, title⟩
  else
    ⟨y, broadcast_target cfg.y_target y, title⟩

/-- The composition that `plot_elements_mee` performs on the plotted
history in its Moon-relative branch, as a standalone function: convert to
Earth-frame Cartesian, subtract the Moon ephemeris sample-by-sample,
reconvert with the Moon's gravitational parameter, subtract 1.0 from the
first column. -/
def moonShift (c2m : Cart → ℚ → Mee) (m2c : Mee → ℚ → Cart)
    (t : List ℚ) (y : List Mee) (e : ℚ → Cart) : List Mee :=
  subOneCol0 ((List.zipWith csub (y.map fun r => m2c r MU_EARTH) (t.map e)).map
    fun s => c2m s MU_MOON)

/-- Modelled from the spec: the first component of
`batch_cartesian_to_mee` (whose implementation is outside this module) is
the semi-latus rectum, p = (h . h) / mu where h = r x v is the specific
angular momentum of the state. -/
def cartesianToMeeP (s : Cart) (mu : ℚ) : ℚ :=
  let hx := s 1 * s 5 - s 2 * s 4
  let hy := s 2 * s 3 - s 0 * s 5
  let hz := s 0 * s 4 - s 1 * s 3
  (hx * hx + hy * hy + hz * hz) / mu

/-- Modelled from the spec: a concrete stand-in for
`batch_cartesian_to_mee` at one row.  Only the first component is
specified by the spec (the semi-latus rectum, `cartesianToMeeP`), and it
is the only component any property below depends on; the remaining
components, which involve square roots and arctangents that have no exact
rational form, are set to 0. -/
def c2mModel (s : Cart) (mu : ℚ) : Mee :=
  fun j => if j = 0 then cartesianToMeeP s mu else 0

/-- Piecewise-linear interpolation of a table of (abscissa, value) pairs
at a query point; the table abscissas are assumed increasing. -/
def interp1 : List (ℚ × ℚ) → ℚ → ℚ
  | [], _ => 0
  | [(_, y0)], _ => y0
  | (x0, y0) :: (x1, y1) :: rest, q =>
    if q ≤ x1 then
      if x1 = x0 then y0 else y0 + (q - x0) * (y1 - y0) / (x1 - x0)
    else interp1 ((x1, y1) :: rest) q

/-- Modelled from the spec: `interpolate_mee` (from
`qlipper.postprocess.interpolation`, outside this module).  Per the spec,
it measures the total sweep of the true-longitude component (component 5)
across the history, divides it into `seg_per_orbit` samples per 2 * pi of
sweep (angular step 2 * pi / seg_per_orbit, rounded up to cover a partial
final revolution), and re-samples time and the other MEE components as
functions of this angle by monotone interpolation over the longitude
axis. -/
def interpolate_mee (t : List ℚ) (mee : List Mee) (seg_per_orbit : ℕ) :
    List ℚ × List Mee :=
  let Ls := mee.map fun r => r 5
  let step := TWO_PI / (seg_per_orbit : ℚ)
  let n := (⌈((mee.map fun r => r 5).getLastD 0 - (mee.map fun r => r 5).headD 0) / step⌉).toNat
  let dense := (List.range n).map fun k : ℕ => Ls.headD 0 + (k : ℚ) * step
  let tI := dense.map (interp1 (Ls.zip t))
  let meeI := dense.map fun q =>
    (fun j => if j = 5 then q else interp1 (Ls.zip (mee.map fun r => r j)) q : Mee)
  (tI, meeI)

/-- Python slicing `xs[a : b]` for nonnegative bounds: both bounds clamp
to the length of the list. -/
def pySlice {α : Type} (xs : List α) (a b : ℕ) : List α :=
  (xs.drop a).take (b - a)

/-- `np.linspace(0, M, S + 1, dtype=int)`: S + 1 evenly spaced indices
from 0 to M, truncated to integers (exact rational spacing floored; this
agrees with numpy for every instance used in this development, where S
divides i * M exactly). -/
def idx_breakpoints (M S : ℕ) : List ℕ :=
  (List.range (S + 1)).map fun i => i * M / S

/-- The segment slices of `plot_trajectory_mee` (lines 154-164): segment
`i` is `cart[idx_breakpoints[i] : idx_breakpoints[i + 1] + 1]`, so
consecutive segments share one boundary point. -/
def trajSegments {α : Type} (xs : List α) (S : ℕ) : List (List α) :=
  let bps := idx_breakpoints xs.length S
  (List.range S).map fun i => pySlice xs (bps.getD i 0) (bps.getD (i + 1) 0 + 1)

/-- The per-segment colors: `cm(i / NUM_SEGMENTS)`, possibly overridden by
a `color` entry of `plot_kwargs` (`default_plot_kwargs | plot_kwargs`). -/
def segColors {γ : Type} (cm : ℚ → γ) (override : Option γ) (S : ℕ) : List γ :=
  (List.range S).map fun i : ℕ => override.getD (cm ((i : ℚ) / (S : ℚ)))

/-- The colored segments handed to the 3D axis: segment `i` of the dense
path paired with its color. -/
def renderSegments {γ α : Type} (cm : ℚ → γ) (override : Option γ)
    (xs : List α) (S : ℕ) : List (γ × List α) :=
  (segColors cm override S).zip (trajSegments xs S)

/-- Concatenate overlapping segments, removing the duplicated shared
boundary point at the head of every segment after the first. -/
def dedupConcat {α : Type} : List (List α) → List α
  | [] => []
  | s :: rest => s ++ (rest.map (List.drop 1)).flatten

/-- The data `plot_trajectory_mee` computes and hands to the plotting
layer: the revolution count used to label the colorbar, and the colored
dense segments. -/
structure TrajectoryData (γ : Type) where
  n_orbits : ℚ
  segments : List (γ × List Cart)

/-- Shallow embedding of the data-computing part of `plot_trajectory_mee`
(`plot_mee.py` lines 135-139, 154-164 and 195-201):
`n_orbits = mee[-1, -1] // (2 * np.pi)` (floor division), then dense
interpolation with `seg_per_orbit = 100`, conversion to Earth-frame
Cartesian, and segmentation into `NUM_SEGMENTS = 50` colored arcs.  `cm`
is the `turbo` colormap, `override` a `color` entry of `plot_kwargs`. -/
def plot_trajectory_mee {γ : Type} (cm : ℚ → γ) (override : Option γ)
    (m2c : Mee → ℚ → Cart) (t : List ℚ) (mee : List Mee) : TrajectoryData γ :=
  let n_orbits := ((⌊(mee.getLastD (fun _ => 0)) 5 / TWO_PI⌋ : ℤ) : ℚ)
  let cart := (interpolate_mee t mee 100).2.map fun r => m2c r MU_EARTH
  ⟨n_orbits, renderSegments cm override cart 50⟩

/-- The row that `broadcast_target` writes into every sample. -/
theorem broadcast_target_eq (Y : Fin 5 → ℚ) (ys : List Mee) :
    broadcast_target Y ys =
      List.replicate ys.length
        (setComp (setComp (setComp (setComp (setComp (fun _ => 0 : Mee) 0 (Y 0))
          1 (Y 1)) 2 (Y 2)) 3 (Y 3)) 4 (Y 4)) := by
  simp [broadcast_target, setCol, List.map_map, Function.comp_def]

/-- Converters and histories used to instantiate hypotheses at concrete
inputs. -/
def c2mW : Cart → ℚ → Mee := fun s _ => s

def m2cW : Mee → ℚ → Cart := fun r _ => r

def rowW : Mee := fun _ => 3

def YW : Fin 5 → ℚ := fun _ => 7

def eW : ℚ → Cart := fun _ => fun _ => 1

def eW2 : ℚ → Cart := fun _ => fun _ => 2

/-- Claim C1: if `cfg.steering_law` is not `"bbq_law"`, the target series
is the constant vector `cfg.y_target` broadcast to the full history
length, independent of any ephemeris input; if it is `"bbq_law"` and
`wrt_moon` is false, the target series is the Moon's own MEE history,
the per-sample Cartesian ephemeris state converted to MEE with the
Earth's gravitational parameter. -/
theorem target_mode_selection (c2m : Cart → ℚ → Mee) (m2c : Mee → ℚ → Cart)
    (law : String) (Y : Fin 5 → ℚ) (e e2 : ℚ → Cart) (t : List ℚ) (y : List Mee)
    (w : Bool) :
    (law ≠ "bbq_law" →
      (plot_elements_mee c2m m2c t y ⟨law, Y⟩ ⟨e⟩ w).yTarget.map
          (fun r => (r 0, r 1, r 2, r 3, r 4))
        = List.replicate y.length (Y 0, Y 1, Y 2, Y 3, Y 4)
      ∧ plot_elements_mee c2m m2c t y ⟨law, Y⟩ ⟨e⟩ w
        = plot_elements_mee c2m m2c t y ⟨law, Y⟩ ⟨e2⟩ w)
    ∧ (law = "bbq_law" → w = false →
      (plot_elements_mee c2m m2c t y ⟨law, Y⟩ ⟨e⟩ w).yTarget
        = t.map fun τ => c2m (e τ) MU_EARTH) := by
  constructor
  · intro hlaw
    constructor
    · simp [plot_elements_mee, hlaw, broadcast_target_eq, setComp]
    · simp [plot_elements_mee, hlaw]
  · intro hlaw hw
    subst hlaw hw
    simp [plot_elements_mee, List.map_map, Function.comp_def]

/-- Witness for `target_mode_selection`, at a one-sample history for each
of the two steering-law hypotheses. -/
theorem target_mode_selection_witness :
    ((plot_elements_mee c2mW m2cW [0] [rowW] ⟨"q_law", YW⟩ ⟨eW⟩ false).yTarget.map
        (fun r => (r 0, r 1, r 2, r 3, r 4))
      = List.replicate 1 (7, 7, 7, 7, 7))
    ∧ ((plot_elements_mee c2mW m2cW [0] [rowW] ⟨"bbq_law", YW⟩ ⟨eW⟩ false).yTarget
      = [0].map fun τ => c2mW (eW τ) MU_EARTH) := by
  constructor
  · have h := (target_mode_selection c2mW m2cW "q_law" YW eW eW2 [0] [rowW] false).1
      (by decide)
    simpa [YW] using h.1
  · exact (target_mode_selection c2mW m2cW "bbq_law" YW eW eW2 [0] [rowW] false).2
      rfl rfl

/-- Claim C2: in the `"bbq_law"` + `wrt_moon` branch, the plotted history
equals: convert the input MEE history to Earth-frame Cartesian, subtract
the Moon's ephemeris state sample-by-sample, convert the difference back
to MEE with the Moon's gravitational parameter, and subtract exactly 1.0
from the first component of every sample. -/
theorem moon_shift_algorithm (c2m : Cart → ℚ → Mee) (m2c : Mee → ℚ → Cart)
    (Y : Fin 5 → ℚ) (e : ℚ → Cart) (t : List ℚ) (y : List Mee) :
    (plot_elements_mee c2m m2c t y ⟨"bbq_law", Y⟩ ⟨e⟩ true).yPlot
      = List.zipWith
          (fun r m =>
            setComp (c2m (csub (m2c r MU_EARTH) m) MU_MOON) 0
              (c2m (csub (m2c r MU_EARTH) m) MU_MOON 0 - 1))
          y (t.map e) := by
  simp [plot_elements_mee, subOneCol0, List.map_zipWith, List.zipWith_map_left]

/-- Claim C9: the Moon re-centering is applied exactly when both
`cfg.steering_law == "bbq_law"` and `wrt_moon` hold; with `wrt_moon` set
but any other steering law the plotted history is the unmodified input,
while the title reads Selenocentric whenever `wrt_moon` is set. -/
theorem recentering_iff (c2m : Cart → ℚ → Mee) (m2c : Mee → ℚ → Cart)
    (law : String) (Y : Fin 5 → ℚ) (e : ℚ → Cart) (t : List ℚ) (y : List Mee)
    (w : Bool) :
    (plot_elements_mee c2m m2c t y ⟨law, Y⟩ ⟨e⟩ w).yPlot
      = (if law = "bbq_law" ∧ w = true then moonShift c2m m2c t y e else y)
    ∧ (plot_elements_mee c2m m2c t y ⟨law, Y⟩ ⟨e⟩ w).title
      = "Modified Equinoctial Elements" ++
        (if w = true then " (Selenocentric)" else " (Geocentric)") := by
  by_cases hl : law = "bbq_law" <;> cases w <;>
    simp [plot_elements_mee, moonShift, hl]

/-- Claim C10: in both constant-target branches the target history has
the same length as the plotted trajectory array, columns 0 to 4 hold the
constant `cfg.y_target` entries, and column 5 is identically zero. -/
theorem const_target_columns (c2m : Cart → ℚ → Mee) (m2c : Mee → ℚ → Cart)
    (law : String) (Y : Fin 5 → ℚ) (e : ℚ → Cart) (t : List ℚ) (y : List Mee)
    (w : Bool) (hbr : law = "bbq_law" → w = true) :
    (plot_elements_mee c2m m2c t y ⟨law, Y⟩ ⟨e⟩ w).yTarget.map
        (fun r => (r 0, r 1, r 2, r 3, r 4, r 5))
      = List.replicate (plot_elements_mee c2m m2c t y ⟨law, Y⟩ ⟨e⟩ w).yPlot.length
          (Y 0, Y 1, Y 2, Y 3, Y 4, 0) := by
  by_cases hl : law = "bbq_law" <;> cases w
  · exact absurd (hbr hl) (by simp)
  · simp [plot_elements_mee, hl, broadcast_target_eq, setComp]
  · simp [plot_elements_mee, hl, broadcast_target_eq, setComp]
  · simp [plot_elements_mee, hl, broadcast_target_eq, setComp]

/-- Witness for `const_target_columns` at a one-sample history in the
fixed-target branch. -/
theorem const_target_columns_witness :
    (("q_law" = "bbq_law" → false = true)
      ∧ (plot_elements_mee c2mW m2cW [0] [rowW] ⟨"q_law", YW⟩ ⟨eW⟩ false).yTarget.map
          (fun r => (r 0, r 1, r 2, r 3, r 4, r 5))
        = List.replicate
            (plot_elements_mee c2mW m2cW [0] [rowW] ⟨"q_law", YW⟩ ⟨eW⟩ false).yPlot.length
            (YW 0, YW 1, YW 2, YW 3, YW 4, 0)) := by
  exact ⟨by decide,
    const_target_columns c2mW m2cW "q_law" YW eW [0] [rowW] false (by decide)⟩

/-- Subtracting a Cartesian history from itself gives all-zero rows. -/
theorem zipWith_csub_self (l : List Cart) :
    List.zipWith csub l l = l.map fun _ => (fun _ => 0 : Cart) := by
  induction l with
  | nil => rfl
  | cons a l ih =>
    simp only [List.zipWith_cons_cons, List.map_cons, ih]
    refine congrArg (· :: _) ?_
    funext i
    simp [csub]

def cxState : Cart := fun i => (i : ℚ) + 1

def cxEphem : ℚ → Cart := fun _ => cxState

def cxM2C : Mee → ℚ → Cart := fun _ _ => cxState

/-- Claim C4 is false as stated: for the one-sample trajectory whose
Cartesian state coincides exactly with the Moon's ephemeris state, the
shifted first component is -1, not 0 (the relative state is the zero
vector, whose semi-latus rectum is 0). -/
theorem ref_shift_identity_cx :
    ([rowW].map (fun r => cxM2C r MU_EARTH) = ([0] : List ℚ).map cxEphem)
    ∧ ¬ ((plot_elements_mee c2mModel cxM2C [0] [rowW] ⟨"bbq_law", YW⟩
            ⟨cxEphem⟩ true).yPlot.map (fun r => r 0)
        = List.replicate 1 (0 : ℚ)) := by
  refine ⟨rfl, fun hcl => ?_⟩
  have hv : (plot_elements_mee c2mModel cxM2C [0] [rowW] ⟨"bbq_law", YW⟩
      ⟨cxEphem⟩ true).yPlot.map (fun r => r 0) = [(-1 : ℚ)] := by
    simp [plot_elements_mee, subOneCol0, setComp, c2mModel, cartesianToMeeP,
      csub, cxM2C, cxEphem, cxState, rowW]
  rw [hv] at hcl
  simp at hcl

/-- Claim C4 (amended): for every trajectory whose Cartesian state
coincides with the Moon's ephemeris state at every sample, the shifted
series has first component identically -1 (the zero relative state has
semi-latus rectum 0, and the normalization subtracts 1.0). -/
theorem ref_shift_matched (c2m : Cart → ℚ → Mee) (m2c : Mee → ℚ → Cart)
    (Y : Fin 5 → ℚ) (e : ℚ → Cart) (t : List ℚ) (y : List Mee)
    (hp : ∀ s mu, c2m s mu 0 = cartesianToMeeP s mu)
    (hmatch : y.map (fun r => m2c r MU_EARTH) = t.map e) :
    (plot_elements_mee c2m m2c t y ⟨"bbq_law", Y⟩ ⟨e⟩ true).yPlot.map
        (fun r => r 0)
      = List.replicate y.length (-1 : ℚ) := by
  simp only [plot_elements_mee, if_pos rfl, if_true]
  rw [← hmatch, zipWith_csub_self]
  simp [subOneCol0, List.map_map, Function.comp_def, setComp, hp, cartesianToMeeP]

/-- Witness for `ref_shift_matched` at a one-sample matched trajectory. -/
theorem ref_shift_matched_witness :
    ([rowW].map (fun r => cxM2C r MU_EARTH) = ([0] : List ℚ).map cxEphem)
    ∧ (plot_elements_mee c2mModel cxM2C [0] [rowW] ⟨"bbq_law", YW⟩
          ⟨cxEphem⟩ true).yPlot.map (fun r => r 0)
      = List.replicate 1 (-1 : ℚ) := by
  refine ⟨rfl, ?_⟩
  have h := ref_shift_matched c2mModel cxM2C YW cxEphem [0] [rowW]
    (fun s mu => rfl) rfl
  simpa using h

def cxRowL : Mee := fun _ => 7 * TWO_PI / 2

/-- Claim C6 is false as stated: for a history ending at true longitude
3.5 * 2 pi, the reported count is the floor value 3, not the exact
quotient 3.5, because the code uses floor division. -/
theorem orbit_count_cx :
    (plot_trajectory_mee (fun q : ℚ => q) none m2cW [0] [cxRowL]).n_orbits
      ≠ ([cxRowL].getLastD (fun _ => 0)) 5 / TWO_PI := by
  simp only [plot_trajectory_mee]
  norm_num [TWO_PI, cxRowL]

/-- Claim C6 (amended): the revolution count reported alongside the
segmented path is the floor of the final true longitude divided by
2 pi: an integer at most the exact quotient and above it minus one. -/
theorem orbit_count_floor {γ : Type} (cm : ℚ → γ) (ov : Option γ)
    (m2c : Mee → ℚ → Cart) (t : List ℚ) (mee : List Mee) :
    (plot_trajectory_mee cm ov m2c t mee).n_orbits
      = ((⌊(mee.getLastD (fun _ => 0)) 5 / TWO_PI⌋ : ℤ) : ℚ)
    ∧ (plot_trajectory_mee cm ov m2c t mee).n_orbits
        ≤ (mee.getLastD (fun _ => 0)) 5 / TWO_PI
    ∧ (mee.getLastD (fun _ => 0)) 5 / TWO_PI
        < (plot_trajectory_mee cm ov m2c t mee).n_orbits + 1 := by
  refine ⟨rfl, ?_, ?_⟩ <;> simp only [plot_trajectory_mee]
  · exact Int.floor_le _
  · exact Int.lt_floor_add_one _

/-- The colors of the rendered segments are exactly `segColors`. -/
theorem map_fst_renderSegments {γ α : Type} (cm : ℚ → γ) (ov : Option γ)
    (xs : List α) (S : ℕ) :
    (renderSegments cm ov xs S).map Prod.fst = segColors cm ov S := by
  apply List.map_fst_zip
  simp [segColors, trajSegments]

/-- Claim C7: for any two dense paths of any lengths and contents, segment
i receives the same color; without a kwargs override the color is the
gradient evaluated at i / S, a function of i and S only. -/
theorem segment_color_noninterference {γ α β : Type} (cm : ℚ → γ)
    (ov : Option γ) (S : ℕ) (xs : List α) (ys : List β) :
    (renderSegments cm ov xs S).map Prod.fst
      = (renderSegments cm ov ys S).map Prod.fst
    ∧ (renderSegments cm none xs S).map Prod.fst
      = (List.range S).map fun i : ℕ => cm ((i : ℚ) / (S : ℚ)) := by
  refine ⟨?_, ?_⟩
  · rw [map_fst_renderSegments, map_fst_renderSegments]
  · rw [map_fst_renderSegments]
    simp [segColors]

/-- The dense output length of `interpolate_mee`. -/
theorem length_interpolate (t : List ℚ) (mee : List Mee) (s : ℕ) :
    (interpolate_mee t mee s).2.length =
      (⌈((mee.map fun r => r 5).getLastD 0 - (mee.map fun r => r 5).headD 0)
          / (TWO_PI / (s : ℚ))⌉).toNat := by
  simp only [interpolate_mee, List.length_map, List.length_range]

/-- Claim C8: with `seg_per_orbit = 100` (the value the 3D trajectory
plot uses) and a history sweeping exactly three revolutions of true
longitude, the dense output has exactly 300 samples. -/
theorem interpolator_density (t : List ℚ) (mee : List Mee)
    (h : (mee.map fun r => r 5).getLastD 0 - (mee.map fun r => r 5).headD 0
        = 3 * TWO_PI) :
    (interpolate_mee t mee 100).2.length = 300 := by
  rw [length_interpolate, h]
  norm_num [TWO_PI]
  decide

def rowL0 : Mee := fun _ => 0

def rowL3 : Mee := fun _ => 3 * TWO_PI

/-- Witness for `interpolator_density` on a two-sample history sweeping
three revolutions. -/
theorem interpolator_density_witness :
    (([rowL0, rowL3].map fun r => r 5).getLastD 0
        - ([rowL0, rowL3].map fun r => r 5).headD 0 = 3 * TWO_PI)
    ∧ (interpolate_mee [0, 1] [rowL0, rowL3] 100).2.length = 300 := by
  have hh : ([rowL0, rowL3].map fun r => r 5).getLastD 0
      - ([rowL0, rowL3].map fun r => r 5).headD 0 = 3 * TWO_PI := by
    simp [rowL0, rowL3]
  exact ⟨hh, interpolator_density [0, 1] [rowL0, rowL3] hh⟩

theorem pySlice_append {α : Type} (xs : List α) (a b c : ℕ)
    (hab : a ≤ b) (hbc : b ≤ c) :
    pySlice xs a b ++ pySlice xs b c = pySlice xs a c := by
  unfold pySlice
  have hd : xs.drop b = (xs.drop a).drop (b - a) := by
    rw [List.drop_drop]
    congr 1
    omega
  rw [hd, ← List.take_add]
  congr 1
  omega

theorem drop_one_pySlice {α : Type} (xs : List α) (a b : ℕ) :
    (pySlice xs a b).drop 1 = pySlice xs (a + 1) b := by
  unfold pySlice
  rw [List.drop_take, List.drop_drop]
  congr 1

theorem length_pySlice {α : Type} (xs : List α) (a b : ℕ) :
    (pySlice xs a b).length = min (b - a) (xs.length - a) := by
  simp [pySlice]

theorem head?_pySlice {α : Type} (xs : List α) (a b : ℕ) (h : a < b) :
    (pySlice xs a b).head? = xs[a]? := by
  unfold pySlice
  rw [List.head?_eq_getElem?, List.getElem?_take, if_pos (by omega), List.getElem?_drop]
  simp

theorem getElem?_pySlice {α : Type} (xs : List α) (a b k : ℕ) (h : k < b - a) :
    (pySlice xs a b)[k]? = xs[a + k]? := by
  unfold pySlice
  rw [List.getElem?_take, if_pos h, List.getElem?_drop]

theorem getLast?_pySlice_21 {α : Type} (xs : List α) (a : ℕ)
    (h : a + 21 ≤ xs.length) :
    (pySlice xs a (a + 21)).getLast? = xs[a + 20]? := by
  rw [List.getLast?_eq_getElem?, length_pySlice]
  have hm : min (a + 21 - a) (xs.length - a) = 21 := by omega
  rw [hm, getElem?_pySlice xs a (a + 21) 20 (by omega)]

/-- Concatenating the de-headed tails of a run of consecutive
21-point slices stepping by 20 covers one contiguous slice. -/
theorem flatten_drop_chain {α : Type} (xs : List α) (a : ℕ) (k : ℕ) :
    (((List.range k).map fun i : ℕ => pySlice xs (a + 20 * i) (a + 20 * i + 21)).map
        (List.drop 1)).flatten
      = pySlice xs (a + 1) (a + 20 * k + 1) := by
  induction k with
  | zero => simp [pySlice]
  | succ k ih =>
    rw [List.range_succ, List.map_append, List.map_append, List.flatten_append, ih]
    simp only [List.map_cons, List.map_nil, List.flatten_cons, List.flatten_nil,
      List.append_nil]
    rw [drop_one_pySlice]
    have he : a + 20 * (k + 1) + 1 = a + 20 * k + 21 := by omega
    rw [he, pySlice_append xs (a + 1) (a + 20 * k + 1) (a + 20 * k + 21)
      (by omega) (by omega)]

theorem getD_map_range (f : ℕ → ℕ) (n j : ℕ) (hj : j < n) :
    (((List.range n).map f).getD j 0) = f j := by
  rw [List.getD_eq_getElem?_getD, List.getElem?_map, List.getElem?_range hj]
  rfl

/-- On a 1000-point path the 50 segment slices start at multiples of
20 and nominally end 21 points later. -/
theorem trajSegments_eq {α : Type} (xs : List α) (hlen : xs.length = 1000) :
    trajSegments xs 50
      = (List.range 50).map fun i : ℕ => pySlice xs (20 * i) (20 * i + 21) := by
  have hbp : idx_breakpoints xs.length 50 = (List.range 51).map fun i : ℕ => 20 * i := by
    rw [hlen]
    decide
  simp only [trajSegments, hbp]
  apply List.map_congr_left
  intro i hi
  rw [List.mem_range] at hi
  rw [getD_map_range _ 51 i (by omega), getD_map_range _ 51 (i + 1) (by omega)]
  congr 1

/-- Claim C3: for a 1000-point dense path split into 50 segments, the 51
index breakpoints are the evenly spaced values 0, 20, ..., 1000; segment
i is the slice spanning indices 20 i through 20 (i + 1) inclusive (the
final segment clipped at the last existing point), so each segment starts
at its left breakpoint and ends at its right breakpoint; the segment
lengths sum to 1000 + 49; and concatenating all segments while dropping
the 49 duplicated shared boundary points rebuilds the path in order. -/
theorem segmenter_coverage {α : Type} (xs : List α) (hlen : xs.length = 1000) :
    idx_breakpoints xs.length 50 = (List.range 51).map (fun i : ℕ => 20 * i)
    ∧ (∀ i : Fin 50, (trajSegments xs 50).getD i.val []
        = pySlice xs (20 * i.val) (20 * i.val + 21))
    ∧ (∀ i : Fin 50, ((trajSegments xs 50).getD i.val []).head? = xs[20 * i.val]?)
    ∧ (∀ i : Fin 49, ((trajSegments xs 50).getD i.val []).getLast?
        = xs[20 * (i.val + 1)]?)
    ∧ ((trajSegments xs 50).map List.length).sum = 1000 + (50 - 1)
    ∧ dedupConcat (trajSegments xs 50) = xs := by
  have hseg := trajSegments_eq xs hlen
  have hgetD : ∀ i : ℕ, i < 50 → (trajSegments xs 50).getD i []
      = pySlice xs (20 * i) (20 * i + 21) := by
    intro i hi
    rw [hseg, List.getD_eq_getElem?_getD, List.getElem?_map, List.getElem?_range hi]
    rfl
  refine ⟨?_, ?_, ?_, ?_, ?_, ?_⟩
  · rw [hlen]
    decide
  · intro i
    exact hgetD i.val i.isLt
  · intro i
    rw [hgetD i.val i.isLt]
    exact head?_pySlice xs _ _ (by omega)
  · intro i
    rw [hgetD i.val (by omega)]
    rw [getLast?_pySlice_21 xs (20 * i.val) (by omega)]
    congr 1
  · rw [hseg, List.map_map]
    have hf : (List.length ∘ fun i : ℕ => pySlice xs (20 * i) (20 * i + 21))
        = fun i : ℕ => min 21 (1000 - 20 * i) := by
      funext i
      simp only [Function.comp_apply, length_pySlice, hlen]
      omega
    rw [hf]
    decide
  · rw [hseg, List.range_succ_eq_map]
    simp only [List.map_cons, List.map_map]
    show pySlice xs (20 * 0) (20 * 0 + 21) ++ _ = xs
    have hfun : ((fun i : ℕ => pySlice xs (20 * i) (20 * i + 21)) ∘ Nat.succ)
        = fun i : ℕ => pySlice xs (20 + 20 * i) (20 + 20 * i + 21) := by
      funext i
      simp only [Function.comp_apply]
      congr 1 <;> omega
    rw [hfun, flatten_drop_chain xs 20 49]
    have h0 : 20 * 0 = 0 := by omega
    have h1 : 20 * 0 + 21 = 21 := by omega
    rw [h0, h1, pySlice_append xs 0 21 (20 + 20 * 49 + 1) (by omega) (by omega)]
    unfold pySlice
    rw [List.drop_zero]
    apply List.take_of_length_le
    omega

/-- Witness for `segmenter_coverage` on the concrete 1000-point path
0, 1, ..., 999. -/
theorem segmenter_coverage_witness :
    (List.range 1000).length = 1000
    ∧ ((trajSegments (List.range 1000) 50).map List.length).sum = 1000 + (50 - 1)
    ∧ dedupConcat (trajSegments (List.range 1000) 50) = List.range 1000 := by
  have h := segmenter_coverage (List.range 1000) (by simp)
  exact ⟨by simp, h.2.2.2.2.1, h.2.2.2.2.2⟩
